import Mathlib

/-!
Verification of the field-note map application core against its specification.

The development shallowly embeds the map-control abstraction, the overlay
store and the screen-controller state transitions of the repository:

* `src/components/map/MapView.web.tsx` — in-process renderer binding
  (`updateLocation`, `addRasterOverlay`, the pulse animation loop);
* the generated WebView page and its command handler
  (`updateUserLocation`, `handleCommand`, `startPulseAnimation`);
* the native bridge (`sendCommand` / `handleMessage` / the 10 s timeout);
* the IndexedDB overlay store (`saveOverlay`, `loadAllOverlays`,
  `normalizeOverlay`, field-update helpers, group CRUD);
* the screen controller group/overlay handlers (`handleAddOverlay`,
  `handleDeleteGroup`, `handleCreateGroup`, `sortedGroups`).

Machine numbers of the JavaScript runtime are modelled as exact rationals;
`Date.now()` and other ambient inputs are passed as explicit parameters.
-/

namespace FieldNote

/-! ### Accuracy radius (MapView.web.tsx `updateLocation`, map page `updateUserLocation`)

`metersPerPixel = 156543.03392 * cos(lat * π / 180) / 2^zoom`;
`accuracyRadius = accuracy ? min(max(accuracy / metersPerPixel, 10), 100) : 0`.
The cosine is computed by the JS runtime; it enters the model as the
parameter `cosLat`, constrained in theorems to an interval that contains
the true value of `cos (lat·π/180)` for the latitude at hand. -/

def metersPerPixel (cosLat : ℚ) (zoom : ℕ) : ℚ :=
  156543.03392 * cosLat / 2 ^ zoom

/-- JS `accuracy ? Math.min(Math.max(accuracy / metersPerPixel, 10), 100) : 0`;
a JS falsy (zero) accuracy yields radius 0. -/
def accuracyRadius (accuracy mpp : ℚ) : ℚ :=
  if accuracy = 0 then 0 else min (max (accuracy / mpp) 10) 100

/-- The interval `[1/2, 1]` used for `cosLat` in the concrete radius theorems
really contains `cos (35·π/180)`. -/
theorem cos_35_deg_mem_interval :
    (1 : ℝ) / 2 ≤ Real.cos (35 * Real.pi / 180) ∧
      Real.cos (35 * Real.pi / 180) ≤ 1 := by
  constructor
  · have hx : (35 : ℝ) * Real.pi / 180 ≤ 7 / 9 := by
      have := Real.pi_le_four
      nlinarith
    have hx0 : (0 : ℝ) ≤ 35 * Real.pi / 180 := by
      have := Real.pi_pos
      positivity
    have h := Real.one_sub_sq_div_two_le_cos (x := 35 * Real.pi / 180)
    nlinarith
  · exact Real.cos_le_one _

/-- C1. For a non-zero accuracy the radius written into the position feature
is `accuracy / metersPerPixel` clamped to `[10, 100]`; at latitude 35.0 and
zoom 13 (for any runtime cosine value in `[1/2, 1]`, an interval containing
`cos (35·π/180)`), accuracy 1 m clamps to 10 px and accuracy 100000 m clamps
to 100 px. -/
theorem C1_accuracy_radius :
    (∀ a mpp : ℚ, a ≠ 0 →
      accuracyRadius a mpp = min (max (a / mpp) 10) 100 ∧
      10 ≤ accuracyRadius a mpp ∧ accuracyRadius a mpp ≤ 100) ∧
    (∀ c : ℚ, 1 / 2 ≤ c → c ≤ 1 →
      accuracyRadius 1 (metersPerPixel c 13) = 10 ∧
      accuracyRadius 100000 (metersPerPixel c 13) = 100) := by
  constructor
  · intro a mpp ha
    unfold accuracyRadius
    rw [if_neg ha]
    refine ⟨rfl, ?_, ?_⟩
    · rcases le_total (max (a / mpp) 10) 100 with h | h
      · rw [min_eq_left h]; exact le_max_right _ _
      · rw [min_eq_right h]; norm_num
    · exact min_le_right _ _
  · intro c hc1 hc2
    have hmpp : metersPerPixel c 13 = 156543.03392 * c / 8192 := by
      unfold metersPerPixel; norm_num
    have hpos : (0 : ℚ) < 156543.03392 * c / 8192 := by positivity
    constructor
    · unfold accuracyRadius
      rw [if_neg (by norm_num), hmpp]
      have hle : (1 : ℚ) / (156543.03392 * c / 8192) ≤ 10 := by
        rw [div_le_iff₀ hpos]
        nlinarith
      rw [max_eq_right hle, min_eq_left (by norm_num)]
    · unfold accuracyRadius
      rw [if_neg (by norm_num), hmpp]
      have hge : (100 : ℚ) ≤ 100000 / (156543.03392 * c / 8192) := by
        rw [le_div_iff₀ hpos]
        nlinarith
      rw [max_eq_left (le_trans (by norm_num) hge), min_eq_right hge]

/-- Closed instance of `C1_accuracy_radius`: accuracy 5 m with
`metersPerPixel 1 13`, and the latitude-35 cases at cosine 4/5. -/
theorem C1_accuracy_radius_witness :
    accuracyRadius 5 (metersPerPixel 1 13) =
        min (max (5 / metersPerPixel 1 13) 10) 100 ∧
      accuracyRadius 1 (metersPerPixel (4/5) 13) = 10 ∧
      accuracyRadius 100000 (metersPerPixel (4/5) 13) = 100 :=
  ⟨(C1_accuracy_radius.1 5 (metersPerPixel 1 13) (by norm_num)).1,
   (C1_accuracy_radius.2 (4/5) (by norm_num) (by norm_num)).1,
   (C1_accuracy_radius.2 (4/5) (by norm_num) (by norm_num)).2⟩

/-! ### Pulsing halo animation (`animatePulse` / `startPulseAnimation`)

Per frame: `pulseR += pulseDir * 0.3; if (pulseR >= 24) pulseDir = -1;
if (pulseR <= 16) pulseDir = 1;` then the paint properties are set to
`pulseR` and `0.4 - ((pulseR - 16) / (24 - 16)) * 0.3`. -/

structure PulseState where
  radius : ℚ
  direction : ℤ
deriving DecidableEq, Repr

/-- Initial values `pulseRadius = 18`, `pulseDirection = 1`. -/
def pulseInit : PulseState := ⟨18, 1⟩

/-- One `animatePulse` frame step. -/
def animatePulseStep (s : PulseState) : PulseState :=
  let r := s.radius + (s.direction : ℚ) * 0.3
  let d1 : ℤ := if 24 ≤ r then -1 else s.direction
  let d2 : ℤ := if r ≤ 16 then 1 else d1
  ⟨r, d2⟩

/-- Opacity written by each frame: `0.4 - ((pulseR - 16) / (24 - 16)) * 0.3`. -/
def pulseOpacity (r : ℚ) : ℚ := 0.4 - ((r - 16) / (24 - 16)) * 0.3

/-- State rendered on frame `n` (the loop steps before painting, so frame `n`
paints the `(n+1)`-st iterate of the step function). -/
def pulseFrame (n : ℕ) : PulseState := animatePulseStep^[n + 1] pulseInit

/-- Opacity painted on frame `n`. -/
def pulseOpacityAt (n : ℕ) : ℚ := pulseOpacity (pulseFrame n).radius

/-- Inductive invariant of the pulse loop: the radius lives on the 0.3-grid
`3k/10` with `k ∈ [53, 79]` while rising and `k ∈ [54, 80]` while falling. -/
def PulseInv (s : PulseState) : Prop :=
  ∃ k : ℤ, s.radius = 3 * k / 10 ∧
    ((s.direction = 1 ∧ 53 ≤ k ∧ k ≤ 79) ∨
     (s.direction = -1 ∧ 54 ≤ k ∧ k ≤ 80))

theorem pulseInv_init : PulseInv pulseInit :=
  ⟨60, by norm_num [pulseInit], Or.inl ⟨rfl, by norm_num, by norm_num⟩⟩

theorem pulseInv_step {s : PulseState} (h : PulseInv s) :
    PulseInv (animatePulseStep s) := by
  obtain ⟨k, hr, hc⟩ := h
  rcases hc with ⟨hd, hk1, hk2⟩ | ⟨hd, hk1, hk2⟩
  · -- rising phase
    by_cases hk : k = 79
    · refine ⟨80, ?_, Or.inr ⟨?_, by norm_num, by norm_num⟩⟩
      · simp only [animatePulseStep, hr, hd, hk]
        norm_num
      · simp only [animatePulseStep, hr, hd, hk]
        norm_num
    · have hk79 : k ≤ 78 := by omega
      have hkc : (k : ℚ) ≤ 78 := by exact_mod_cast hk79
      have hkc1 : (53 : ℚ) ≤ (k : ℚ) := by exact_mod_cast hk1
      have hlt : ¬ (24 : ℚ) ≤ 3 * k / 10 + 1 * 0.3 := by
        intro hcon; nlinarith
      have hgt : ¬ (3 * (k : ℚ) / 10 + 1 * 0.3 ≤ 16) := by
        intro hcon; nlinarith
      refine ⟨k + 1, ?_, Or.inl ⟨?_, by omega, by omega⟩⟩
      · simp only [animatePulseStep, hr, hd]
        push_cast
        ring
      · simp only [animatePulseStep, hr, hd, Int.cast_one]
        rw [if_neg hlt, if_neg hgt]
  · -- falling phase
    by_cases hk : k = 54
    · refine ⟨53, ?_, Or.inl ⟨?_, by norm_num, by norm_num⟩⟩
      · simp only [animatePulseStep, hr, hd, hk]
        norm_num
      · simp only [animatePulseStep, hr, hd, hk]
        norm_num
    · have hk55 : 55 ≤ k := by omega
      have hkc : (55 : ℚ) ≤ (k : ℚ) := by exact_mod_cast hk55
      have hkc2 : (k : ℚ) ≤ 80 := by exact_mod_cast hk2
      have hlt : ¬ (24 : ℚ) ≤ 3 * k / 10 + (-1) * 0.3 := by
        intro hcon; nlinarith
      have hgt : ¬ (3 * (k : ℚ) / 10 + (-1) * 0.3 ≤ 16) := by
        intro hcon; nlinarith
      refine ⟨k - 1, ?_, Or.inr ⟨?_, by omega, by omega⟩⟩
      · simp only [animatePulseStep, hr, hd]
        push_cast
        ring
      · simp only [animatePulseStep, hr, hd]
        push_cast
        rw [if_neg hlt, if_neg hgt]

theorem pulseInv_iterate (n : ℕ) : PulseInv (animatePulseStep^[n] pulseInit) := by
  induction n with
  | zero => exact pulseInv_init
  | succ m ih =>
    rw [Function.iterate_succ_apply']
    exact pulseInv_step ih

/-- Executable mirror of `animatePulseStep` with the radius in tenths, for
concrete evaluation (rational normalization does not reduce in the kernel). -/
def pulseStepZ (p : ℤ × ℤ) : ℤ × ℤ :=
  let r := p.1 + p.2 * 3
  let d1 : ℤ := if 240 ≤ r then -1 else p.2
  let d2 : ℤ := if r ≤ 160 then 1 else d1
  (r, d2)

theorem pulseStepZ_sim (s : PulseState) (p : ℤ × ℤ)
    (hr : s.radius = (p.1 : ℚ) / 10) (hd : s.direction = p.2) :
    (animatePulseStep s).radius = ((pulseStepZ p).1 : ℚ) / 10 ∧
      (animatePulseStep s).direction = (pulseStepZ p).2 := by
  have hrq : s.radius + (s.direction : ℚ) * 0.3 = ((p.1 + p.2 * 3 : ℤ) : ℚ) / 10 := by
    rw [hr, hd]; push_cast; ring
  have h24 : (24 : ℚ) ≤ s.radius + (s.direction : ℚ) * 0.3 ↔ 240 ≤ p.1 + p.2 * 3 := by
    rw [hrq]
    constructor
    · intro h
      have : (240 : ℚ) ≤ ((p.1 + p.2 * 3 : ℤ) : ℚ) := by linarith
      exact_mod_cast this
    · intro h
      have : (240 : ℚ) ≤ ((p.1 + p.2 * 3 : ℤ) : ℚ) := by exact_mod_cast h
      linarith
  have h16 : s.radius + (s.direction : ℚ) * 0.3 ≤ 16 ↔ p.1 + p.2 * 3 ≤ 160 := by
    rw [hrq]
    constructor
    · intro h
      have : ((p.1 + p.2 * 3 : ℤ) : ℚ) ≤ 160 := by linarith
      exact_mod_cast this
    · intro h
      have : ((p.1 + p.2 * 3 : ℤ) : ℚ) ≤ 160 := by exact_mod_cast h
      linarith
  constructor
  · simp only [animatePulseStep, pulseStepZ]
    exact hrq
  · simp only [animatePulseStep, pulseStepZ]
    by_cases hc16 : p.1 + p.2 * 3 ≤ 160
    · rw [if_pos (h16.mpr hc16), if_pos hc16]
    · rw [if_neg (fun hcon => hc16 (h16.mp hcon)), if_neg hc16]
      by_cases hc24 : 240 ≤ p.1 + p.2 * 3
      · rw [if_pos (h24.mpr hc24), if_pos hc24]
      · rw [if_neg (fun hcon => hc24 (h24.mp hcon)), if_neg hc24, hd]

theorem pulse_iterate_sim (n : ℕ) :
    (animatePulseStep^[n] pulseInit).radius = ((pulseStepZ^[n] (180, 1)).1 : ℚ) / 10 ∧
      (animatePulseStep^[n] pulseInit).direction = (pulseStepZ^[n] (180, 1)).2 := by
  induction n with
  | zero => exact ⟨by norm_num [pulseInit], rfl⟩
  | succ m ih =>
    rw [Function.iterate_succ_apply', Function.iterate_succ_apply']
    exact pulseStepZ_sim _ _ ih.1 ih.2

/-- C7 counterexample: on frame 46 (20 rising steps from 18 to 24, then 27
falling steps) the painted radius is 15.9, strictly below the claimed lower
bound 16. -/
theorem C7_pulse_counterexample :
    (pulseFrame 46).radius = 159 / 10 ∧ ¬ (16 ≤ (pulseFrame 46).radius) := by
  have h := (pulse_iterate_sim 47).1
  have hz : (pulseStepZ^[47] (180, 1)).1 = 159 := by decide
  have hrad : (pulseFrame 46).radius = 159 / 10 := by
    rw [pulseFrame, h, hz]; norm_num
  exact ⟨hrad, by rw [hrad]; norm_num⟩

/-- C7 amended: every painted pulse radius stays within `[15.9, 24]` (the
falling phase overshoots the claimed lower bound 16 by one 0.3-step once per
cycle), and the painted opacity equals `0.4 - ((radius - 16)/8) * 0.3`. -/
theorem C7_pulse_invariant_amended :
    ∀ n : ℕ, 159 / 10 ≤ (pulseFrame n).radius ∧ (pulseFrame n).radius ≤ 24 ∧
      pulseOpacityAt n = 0.4 - (((pulseFrame n).radius - 16) / 8) * 0.3 := by
  intro n
  obtain ⟨k, hr, hc⟩ := pulseInv_iterate (n + 1)
  have hrad : (pulseFrame n).radius = 3 * k / 10 := hr
  have hk53 : 53 ≤ k := by rcases hc with ⟨_, h, _⟩ | ⟨_, h, _⟩ <;> omega
  have hk80 : k ≤ 80 := by rcases hc with ⟨_, _, h⟩ | ⟨_, _, h⟩ <;> omega
  have hkc1 : (53 : ℚ) ≤ (k : ℚ) := by exact_mod_cast hk53
  have hkc2 : (k : ℚ) ≤ 80 := by exact_mod_cast hk80
  refine ⟨?_, ?_, ?_⟩
  · rw [hrad]; nlinarith
  · rw [hrad]; nlinarith
  · simp only [pulseOpacityAt, pulseOpacity]
    norm_num

/-! ### Renderer state and `addRasterOverlay` (MapView.web.tsx)

The renderer (maplibre) is a black box exposing source/layer mutation; its
state per the spec is the set of registered sources and layers.  Each of
`p.getHeader()`, `map.addSource`, `map.addLayer` may throw; the embedding
takes one Boolean per throw site.  `catch` returns `null` without touching
the renderer further. -/

structure RenderState where
  layers : List String
  sources : List String
deriving DecidableEq, Repr

def removeLayerR (st : RenderState) (id : String) : RenderState :=
  ⟨st.layers.filter (fun l => l != id), st.sources⟩

def removeSourceR (st : RenderState) (id : String) : RenderState :=
  ⟨st.layers, st.sources.filter (fun s => s != id)⟩

def addLayerR (st : RenderState) (id : String) : RenderState :=
  ⟨st.layers ++ [id], st.sources⟩

def addSourceR (st : RenderState) (id : String) : RenderState :=
  ⟨st.layers, st.sources ++ [id]⟩

def overlaySourceId (id : String) : String := "overlay-" ++ id

def overlayLayerId (id : String) : String := "overlay-" ++ id ++ "-layer"

structure OverlayDesc where
  id : String
  name : String
  bounds : ℚ × ℚ × ℚ × ℚ
  opacity : ℚ
deriving DecidableEq, Repr

/-- The in-process `addRasterOverlay` variant.  Mirrors the body of the
`try` block: read the header (bounds), remove any existing layer/source for
the id, register the source, register the layer below the location layers,
return the descriptor; any throw falls into `catch` and yields `none` with
the state as it was at the throw point. -/
def addRasterOverlayWeb (st : RenderState) (id : String)
    (bounds : ℚ × ℚ × ℚ × ℚ)
    (hdrThrows addSourceThrows addLayerThrows : Bool) :
    Option OverlayDesc × RenderState :=
  if hdrThrows then (none, st)
  else
    let st1 := removeSourceR (removeLayerR st (overlayLayerId id)) (overlaySourceId id)
    if addSourceThrows then (none, st1)
    else
      let st2 := addSourceR st1 (overlaySourceId id)
      if addLayerThrows then (none, st2)
      else (some ⟨id, id, bounds, 0.8⟩, addLayerR st2 (overlayLayerId id))

/-- C2 counterexample: starting from an empty renderer, when `addLayer`
throws after `addSource` succeeded the call returns `null` but the source
registered for the id is left behind — the partial state is not rolled
back. -/
theorem C2_rollback_counterexample :
    (addRasterOverlayWeb ⟨[], []⟩ "a" (0, 0, 0, 0) false false true).1 = none ∧
      (addRasterOverlayWeb ⟨[], []⟩ "a" (0, 0, 0, 0) false false true).2.sources =
        [overlaySourceId "a"] := by
  constructor <;> rfl

/-- C2 amended: every failure returns `null`; a header-read failure leaves
the renderer untouched, and a source-registration failure leaves no source
or layer bound to the id; but a layer-registration failure leaves the
already-registered source in place (there is no rollback). -/
theorem C2_rollback_amended (st : RenderState) (id : String)
    (bounds : ℚ × ℚ × ℚ × ℚ) :
    (∀ f1 f2 f3 : Bool, f1 || f2 || f3 →
      (addRasterOverlayWeb st id bounds f1 f2 f3).1 = none) ∧
    (addRasterOverlayWeb st id bounds true false false).2 = st ∧
    ((addRasterOverlayWeb st id bounds false true false).2.sources.contains
        (overlaySourceId id) = false ∧
      (addRasterOverlayWeb st id bounds false true false).2.layers.contains
        (overlayLayerId id) = false) ∧
    (addRasterOverlayWeb st id bounds false false true).2.sources.contains
        (overlaySourceId id) = true := by
  refine ⟨?_, rfl, ⟨?_, ?_⟩, ?_⟩
  · intro f1 f2 f3 h
    cases f1 <;> cases f2 <;> cases f3 <;> simp_all [addRasterOverlayWeb]
  · simp [addRasterOverlayWeb, removeSourceR, removeLayerR, List.contains_eq_any_beq,
      List.any_filter]
  · simp [addRasterOverlayWeb, removeSourceR, removeLayerR, List.contains_eq_any_beq,
      List.any_filter]
  · simp [addRasterOverlayWeb, removeSourceR, removeLayerR, addSourceR,
      List.contains_eq_any_beq]

/-- Closed instance of `C2_rollback_amended`: a header-read failure yields
`null` with the renderer untouched. -/
theorem C2_rollback_amended_witness :
    (addRasterOverlayWeb ⟨[], []⟩ "w" (0, 0, 0, 0) true false false).1 = none ∧
      (addRasterOverlayWeb ⟨[], []⟩ "w" (0, 0, 0, 0) true false false).2 =
        ⟨[], []⟩ :=
  ⟨(C2_rollback_amended ⟨[], []⟩ "w" (0, 0, 0, 0)).1 true false false (by decide),
   (C2_rollback_amended ⟨[], []⟩ "w" (0, 0, 0, 0)).2.1⟩

/-! ### Overlay records and the overlay store (overlay-store, MapScreen)

`StoredOverlayRec` is a raw IndexedDB record: legacy rows may miss the
fields introduced in schema v2, hence the `Option`s.  `dbPut` is IndexedDB
`put` on a store with `keyPath: 'id'`: replace the row with the same key,
else insert. -/

structure OverlayInfo where
  id : String
  name : String
  bounds : ℚ × ℚ × ℚ × ℚ
  opacity : ℚ
  visible : Bool
  groupId : String
deriving DecidableEq, Repr

structure StoredOverlayRec where
  id : String
  filename : String
  data : List ℕ
  opacity : Option ℚ
  visible : Option Bool
  groupId : Option String
  timestamp : Option ℕ
  url : Option String
deriving DecidableEq, Repr

def dbPut (db : List StoredOverlayRec) (r : StoredOverlayRec) : List StoredOverlayRec :=
  if db.any (fun x => x.id == r.id) then
    db.map (fun x => if x.id == r.id then r else x)
  else db ++ [r]

/-- Screen-controller `setOverlays((prev) => [...prev.filter((o) => o.id !== id), info])` —
the screen controller replaces any overlay with the same id. -/
def addOverlayState (prev : List OverlayInfo) (info : OverlayInfo) : List OverlayInfo :=
  prev.filter (fun o => o.id != info.id) ++ [info]

/-- In a list whose projected keys are `Nodup`, at most one element carries
any given key. -/
theorem countP_key_le_one {α : Type} (f : α → String) (l : List α)
    (h : (l.map f).Nodup) (k : String) :
    l.countP (fun x => f x == k) ≤ 1 := by
  induction l with
  | nil => simp
  | cons a t ih =>
    simp only [List.map_cons, List.nodup_cons] at h
    rw [List.countP_cons]
    by_cases hak : f a = k
    · have hz : t.countP (fun x => f x == k) = 0 := by
        rw [List.countP_eq_zero]
        intro x hx hcon
        exact h.1 (List.mem_map.mpr ⟨x, hx, by subst hak; simpa using hcon⟩)
      simp [hz, hak]
    · have h2 := ih h.2
      have hfa : (f a == k) = false := by simp [hak]
      simp only [hfa, Bool.false_eq_true, if_false]
      omega

theorem countP_key_eq_one {α : Type} (f : α → String) (l : List α)
    (h : (l.map f).Nodup) (k : String)
    (ha : l.any (fun x => f x == k) = true) :
    l.countP (fun x => f x == k) = 1 := by
  have h1 := countP_key_le_one f l h k
  have h2 : 0 < l.countP (fun x => f x == k) := by
    rw [List.countP_pos_iff]
    simpa using ha
  omega

/-- C4 counterexample: re-adding id `"a"` with a different display name is
neither rejected nor a no-op — the handler replaces the stored record, so
the state changes and the old record is gone. -/
theorem C4_duplicate_add_counterexample :
    addOverlayState [⟨"a", "x", (0, 0, 0, 0), 1, true, "default"⟩]
        ⟨"a", "y", (0, 0, 0, 0), 1, true, "default"⟩ =
      [⟨"a", "y", (0, 0, 0, 0), 1, true, "default"⟩] ∧
    addOverlayState [⟨"a", "x", (0, 0, 0, 0), 1, true, "default"⟩]
        ⟨"a", "y", (0, 0, 0, 0), 1, true, "default"⟩ ≠
      [⟨"a", "x", (0, 0, 0, 0), 1, true, "default"⟩] := by
  constructor
  · simp [addOverlayState]
  · simp [addOverlayState]

/-- C4 amended: re-adding an existing id replaces the old record in place
(rather than being rejected or skipped): every add leaves exactly one UI
record and one stored record with the id, preserves key uniqueness in both,
and the renderer ends up with exactly one layer bound to the id. -/
theorem C4_duplicate_add_amended :
    (∀ prev info, (addOverlayState prev info).countP (fun o => o.id == info.id) = 1) ∧
    (∀ prev info, (prev.map OverlayInfo.id).Nodup →
      ((addOverlayState prev info).map OverlayInfo.id).Nodup) ∧
    (∀ db r, (db.map StoredOverlayRec.id).Nodup →
      ((dbPut db r).map StoredOverlayRec.id).Nodup ∧
        (dbPut db r).countP (fun x => x.id == r.id) = 1) ∧
    (∀ st id bounds,
      (addRasterOverlayWeb st id bounds false false false).2.layers.count
        (overlayLayerId id) = 1) := by
  refine ⟨?_, ?_, ?_, ?_⟩
  · intro prev info
    rw [addOverlayState, List.countP_append]
    have hz : (prev.filter (fun o => o.id != info.id)).countP
        (fun o => o.id == info.id) = 0 := by
      rw [List.countP_eq_zero]
      intro o ho hcon
      have := List.of_mem_filter ho
      simp_all
    simp [hz]
  · intro prev info h
    rw [addOverlayState, List.map_append, List.nodup_append]
    refine ⟨List.Nodup.sublist (List.Sublist.map _ (List.filter_sublist prev)) h,
      by simp, ?_⟩
    intro x hx hy
    simp only [List.map_cons, List.map_nil, List.mem_singleton] at hy
    obtain ⟨o, ho, rfl⟩ := List.mem_map.mp hx
    have hne := List.of_mem_filter ho
    rw [hy] at hne
    simp at hne
  · intro db r h
    rw [dbPut]
    by_cases ha : db.any (fun x => x.id == r.id) = true
    · rw [if_pos ha]
      have hids : (db.map (fun x => if x.id == r.id then r else x)).map
          StoredOverlayRec.id = db.map StoredOverlayRec.id := by
        rw [List.map_map]
        apply List.map_congr_left
        intro x _
        by_cases hx : x.id = r.id
        · simp [hx]
        · simp [hx]
      constructor
      · rw [hids]; exact h
      · apply countP_key_eq_one StoredOverlayRec.id _ (by rw [hids]; exact h)
        rw [List.any_map]
        rcases List.any_eq_true.mp ha with ⟨x, hx, hxr⟩
        apply List.any_eq_true.mpr
        exact ⟨x, hx, by simp_all⟩
    · rw [if_neg ha]
      constructor
      · rw [List.map_append, List.nodup_append]
        refine ⟨h, by simp, ?_⟩
        intro x hx hy
        simp only [List.map_cons, List.map_nil, List.mem_singleton] at hy
        obtain ⟨o, ho, rfl⟩ := List.mem_map.mp hx
        exact ha (List.any_eq_true.mpr ⟨o, ho, by simp [hy]⟩)
      · rw [List.countP_append]
        have hz : db.countP (fun x => x.id == r.id) = 0 := by
          rw [List.countP_eq_zero]
          intro x hx hcon
          exact ha (List.any_eq_true.mpr ⟨x, hx, hcon⟩)
        simp [hz]
  · intro st id bounds
    simp only [addRasterOverlayWeb, addLayerR, addSourceR, removeSourceR, removeLayerR]
    rw [if_neg (by simp), if_neg (by simp), if_neg (by simp)]
    simp only [List.count_append]
    have hz : (st.layers.filter (fun l => l != overlayLayerId id)).count
        (overlayLayerId id) = 0 := by
      rw [List.count_eq_zero]
      intro hcon
      have := List.of_mem_filter hcon
      simp_all
    simp [hz, List.count_singleton]

/-- Closed instance of `C4_duplicate_add_amended` at empty starting states. -/
theorem C4_duplicate_add_amended_witness :
    ((addOverlayState [] ⟨"a", "x", (0, 0, 0, 0), 1, true, "default"⟩).map
      OverlayInfo.id).Nodup ∧
    (dbPut [] ⟨"a", "x", [], none, none, none, none, none⟩).countP
      (fun x => x.id == "a") = 1 :=
  ⟨C4_duplicate_add_amended.2.1 [] _ (by simp),
   (C4_duplicate_add_amended.2.2.1 [] ⟨"a", "x", [], none, none, none, none, none⟩
      (by simp)).2⟩

/-! ### Overlay groups and the screen-controller group handlers (MapScreen)

State transitions on the `overlayGroups` React state: the restore effect,
`handleCreateGroup`, `handleRenameGroup`, `handleToggleGroupExpanded`,
`handleDeleteGroup`.  `Date.now()` in the generated group id enters as the
`suffix` parameter; dialog names are modelled post-`trim()`. -/

structure OverlayGroup where
  id : String
  name : String
  expanded : Bool
  order : ℤ
deriving DecidableEq, Repr

def DEFAULT_GROUP : OverlayGroup := ⟨"default", "未分類", true, 9999⟩

/-- Restore effect: a non-empty stored list replaces the state, with the
default group appended when missing; an empty DB leaves the state alone. -/
def restoreGroups (current stored : List OverlayGroup) : List OverlayGroup :=
  if stored.isEmpty then current
  else if stored.any (fun g => g.id == "default") then stored
  else stored ++ [DEFAULT_GROUP]

def handleCreateGroup (gs : List OverlayGroup) (name suffix : String) :
    List OverlayGroup :=
  if name == "" then gs
  else
    let maxOrder := (gs.filter (fun g => g.id != "default")).foldl
      (fun m g => max m g.order) 0
    let newGroup : OverlayGroup := ⟨"group-" ++ suffix, name, true, maxOrder + 1⟩
    let withoutDefault := gs.filter (fun g => g.id != "default")
    let dflt := (gs.find? (fun g => g.id == "default")).getD DEFAULT_GROUP
    withoutDefault ++ [newGroup, dflt]

def handleRenameGroup (gs : List OverlayGroup) (gid name : String) :
    List OverlayGroup :=
  if name == "" then gs
  else gs.map (fun g => if g.id == gid then { g with name := name } else g)

def handleToggleGroupExpanded (gs : List OverlayGroup) (gid : String) :
    List OverlayGroup :=
  gs.map (fun g => if g.id == gid then { g with expanded := !g.expanded } else g)

/-- Handler `handleDeleteGroup`: the default group is never deleted; deleting any
other group re-parents its member overlays to `"default"` and filters the
group out. -/
def handleDeleteGroup (gid : String) (gs : List OverlayGroup)
    (ov : List OverlayInfo) : List OverlayGroup × List OverlayInfo :=
  if gid == "default" then (gs, ov)
  else (gs.filter (fun g => g.id != gid),
    ov.map (fun o => if o.groupId == gid then { o with groupId := "default" } else o))

/-- Group-list states reachable by the screen controller.  The restore step
carries the key-uniqueness of the IndexedDB group store (`keyPath: 'id'`). -/
inductive GroupsReachable : List OverlayGroup → Prop where
  | init : GroupsReachable [DEFAULT_GROUP]
  | restore {gs} (stored : List OverlayGroup) : GroupsReachable gs →
      (stored.map OverlayGroup.id).Nodup → GroupsReachable (restoreGroups gs stored)
  | create {gs} (name suffix : String) : GroupsReachable gs →
      GroupsReachable (handleCreateGroup gs name suffix)
  | rename {gs} (gid name : String) : GroupsReachable gs →
      GroupsReachable (handleRenameGroup gs gid name)
  | toggle {gs} (gid : String) : GroupsReachable gs →
      GroupsReachable (handleToggleGroupExpanded gs gid)
  | delete {gs} (gid : String) (ov : List OverlayInfo) : GroupsReachable gs →
      GroupsReachable (handleDeleteGroup gid gs ov).1

/-- Generated group ids (`group-` + timestamp) never collide with the
reserved default id. -/
theorem group_id_ne_default (s : String) : ¬("group-" ++ s = "default") := by
  intro h
  have hd : "group-".data ++ s.data = "default".data := by
    rw [← String.data_append]
    exact congrArg String.data h
  have hg : "group-".data = ['g', 'r', 'o', 'u', 'p', '-'] := rfl
  have hdd : "default".data = ['d', 'e', 'f', 'a', 'u', 'l', 't'] := rfl
  rw [hg, hdd] at hd
  simp at hd

theorem countP_map_preserving (gs : List OverlayGroup)
    (f : OverlayGroup → OverlayGroup) (hf : ∀ g, (f g).id = g.id) :
    (gs.map f).countP (fun g => g.id == "default") =
      gs.countP (fun g => g.id == "default") := by
  rw [List.countP_map]
  apply List.countP_congr
  intro g _
  simp [Function.comp, hf]

/-- Handler `handleCreateGroup` with a non-empty name always produces a state with
exactly one default group, whatever the input state held. -/
theorem handleCreateGroup_count (l : List OverlayGroup) (name suffix : String)
    (hn : ¬(name == "") = true) :
    (handleCreateGroup l name suffix).countP (fun g => g.id == "default") = 1 := by
  rw [handleCreateGroup, if_neg hn]
  simp only [List.countP_append]
  have h1 : (l.filter (fun g => g.id != "default")).countP
      (fun g => g.id == "default") = 0 := by
    rw [List.countP_eq_zero]
    intro g hg hcon
    have := List.of_mem_filter hg
    simp_all
  have h2 : ¬(("group-" ++ suffix) == "default") = true := by
    simp only [beq_iff_eq]
    exact group_id_ne_default suffix
  have h3 : ((l.find? (fun g => g.id == "default")).getD DEFAULT_GROUP).id =
      "default" := by
    cases hf : l.find? (fun g => g.id == "default") with
    | none => simp [DEFAULT_GROUP]
    | some g =>
      have := List.find?_some hf
      simp_all
  rw [h1]
  simp [List.countP_cons, h2, h3]

theorem groupsReachable_default_count {gs : List OverlayGroup}
    (h : GroupsReachable gs) :
    gs.countP (fun g => g.id == "default") = 1 := by
  induction h with
  | init => simp [DEFAULT_GROUP]
  | restore stored _ hn ih =>
    rw [restoreGroups]
    by_cases he : stored.isEmpty
    · rw [if_pos he]; exact ih
    · rw [if_neg he]
      by_cases ha : stored.any (fun g => g.id == "default") = true
      · rw [if_pos ha]
        exact countP_key_eq_one OverlayGroup.id stored hn "default" ha
      · rw [if_neg ha, List.countP_append]
        have hz : stored.countP (fun g => g.id == "default") = 0 := by
          rw [List.countP_eq_zero]
          intro g hg hcon
          exact ha (List.any_eq_true.mpr ⟨g, hg, hcon⟩)
        simp [hz, DEFAULT_GROUP]
  | create name suffix _ ih =>
    by_cases hn : (name == "") = true
    · rw [handleCreateGroup, if_pos hn]; exact ih
    · exact handleCreateGroup_count _ name suffix hn
  | rename gid name _ ih =>
    rw [handleRenameGroup]
    by_cases hn : (name == "") = true
    · rw [if_pos hn]; exact ih
    · rw [if_neg hn]
      rw [countP_map_preserving]
      · exact ih
      · intro g
        by_cases hg : (g.id == gid) = true <;> simp [hg]
  | toggle gid _ ih =>
    rw [handleToggleGroupExpanded, countP_map_preserving]
    · exact ih
    · intro g
      by_cases hg : (g.id == gid) = true <;> simp [hg]
  | delete gid ov _ ih =>
    rw [handleDeleteGroup]
    by_cases hg : (gid == "default") = true
    · rw [if_pos hg]; exact ih
    · rw [if_neg hg]
      simp only
      rw [List.countP_filter]
      rw [← ih]
      apply List.countP_congr
      intro g _
      by_cases hgd : g.id = "default"
      · have hne : ("default" != gid) = true := by
          simp only [bne_iff_ne]
          intro hcon
          exact hg (by simp [hcon.symm])
        simp [hgd, hne]
      · simp [hgd]

/-- C5. In every reachable group-list state exactly one group has id
`"default"`; deleting the default group changes nothing; deleting any other
group keeps the overlay count and re-parents exactly the member overlays of
the deleted group to `"default"`. -/
theorem C5_default_group (gs : List OverlayGroup) (ov : List OverlayInfo)
    (h : GroupsReachable gs) :
    gs.countP (fun g => g.id == "default") = 1 ∧
    handleDeleteGroup "default" gs ov = (gs, ov) ∧
    (∀ gid, gid ≠ "default" →
      (handleDeleteGroup gid gs ov).2.length = ov.length ∧
      ∀ o ∈ ov,
        (o.groupId = gid →
          { o with groupId := "default" } ∈ (handleDeleteGroup gid gs ov).2) ∧
        (o.groupId ≠ gid → o ∈ (handleDeleteGroup gid gs ov).2)) := by
  refine ⟨groupsReachable_default_count h, by simp [handleDeleteGroup], ?_⟩
  intro gid hgid
  have hne : (gid == "default") = false := by simp [hgid]
  constructor
  · simp [handleDeleteGroup, hne]
  · intro o ho
    constructor
    · intro hgrp
      simp only [handleDeleteGroup, hne]
      rw [if_neg (by simp [hgid])]
      exact List.mem_map.mpr ⟨o, ho, by simp [hgrp]⟩
    · intro hgrp
      simp only [handleDeleteGroup, hne]
      rw [if_neg (by simp [hgid])]
      exact List.mem_map.mpr ⟨o, ho, by simp [hgrp]⟩

/-- Closed instance of `C5_default_group` at the initial screen state. -/
theorem C5_default_group_witness :
    [DEFAULT_GROUP].countP (fun g => g.id == "default") = 1 ∧
      handleDeleteGroup "default" [DEFAULT_GROUP] [] = ([DEFAULT_GROUP], []) :=
  ⟨(C5_default_group [DEFAULT_GROUP] [] GroupsReachable.init).1,
   (C5_default_group [DEFAULT_GROUP] [] GroupsReachable.init).2.1⟩

/-! ### Group sorting (`sortedGroups` in MapScreen)

`[...overlayGroups].sort((a, b) => a.id === 'default' ? 1 : b.id === 'default'
? -1 : a.order - b.order)`.  JS `Array.prototype.sort` is modelled as an
insertion sort driven by the Boolean relation "the comparator does not place
`a` strictly after `b`" (`cmp(a,b) ≤ 0`). -/

def groupLe (a b : OverlayGroup) : Bool :=
  if a.id == "default" then false
  else if b.id == "default" then true
  else decide (a.order ≤ b.order)

def insertSorted (a : OverlayGroup) : List OverlayGroup → List OverlayGroup
  | [] => [a]
  | b :: l => if groupLe a b then a :: b :: l else b :: insertSorted a l

def sortedGroups : List OverlayGroup → List OverlayGroup
  | [] => []
  | a :: l => insertSorted a (sortedGroups l)

theorem insertSorted_perm (a : OverlayGroup) (l : List OverlayGroup) :
    (insertSorted a l).Perm (a :: l) := by
  induction l with
  | nil => exact List.Perm.refl _
  | cons b t ih =>
    rw [insertSorted]
    by_cases h : groupLe a b = true
    · rw [if_pos h]
    · rw [if_neg h]
      exact (ih.cons b).trans (List.Perm.swap a b t)

theorem mem_insertSorted {x a : OverlayGroup} {l : List OverlayGroup} :
    x ∈ insertSorted a l ↔ x = a ∨ x ∈ l := by
  rw [(insertSorted_perm a l).mem_iff]
  simp

theorem sortedGroups_perm (l : List OverlayGroup) : (sortedGroups l).Perm l := by
  induction l with
  | nil => exact List.Perm.refl _
  | cons a t ih =>
    rw [sortedGroups]
    exact (insertSorted_perm a (sortedGroups t)).trans (ih.cons a)

theorem groupLe_trans {a b c : OverlayGroup} (hab : groupLe a b = true)
    (hbc : groupLe b c = true) : groupLe a c = true := by
  by_cases ha : a.id = "default"
  · simp [groupLe, ha] at hab
  · by_cases hc : c.id = "default"
    · simp [groupLe, ha, hc]
    · by_cases hb : b.id = "default"
      · simp [groupLe, hb] at hbc
      · simp [groupLe, ha, hb] at hab
        simp [groupLe, hb, hc] at hbc
        simp [groupLe, ha, hc]
        exact le_trans hab hbc

theorem insertSorted_pairwise {a : OverlayGroup} {l : List OverlayGroup}
    (hl : l.Pairwise (fun x y => groupLe x y = true))
    (ht : ∀ b ∈ l, groupLe a b = true ∨ groupLe b a = true) :
    (insertSorted a l).Pairwise (fun x y => groupLe x y = true) := by
  induction l with
  | nil => simp [insertSorted]
  | cons b t ih =>
    rcases List.pairwise_cons.mp hl with ⟨hbt, htt⟩
    rw [insertSorted]
    by_cases h : groupLe a b = true
    · rw [if_pos h]
      refine List.pairwise_cons.mpr ⟨?_, hl⟩
      intro x hx
      rcases List.mem_cons.mp hx with rfl | hxt
      · exact h
      · exact groupLe_trans h (hbt x hxt)
    · rw [if_neg h]
      have hba : groupLe b a = true := by
        rcases ht b (List.mem_cons_self b t) with h1 | h2
        · exact absurd h1 h
        · exact h2
      refine List.pairwise_cons.mpr
        ⟨?_, ih htt (fun x hx => ht x (List.mem_cons_of_mem _ hx))⟩
      intro x hx
      rcases mem_insertSorted.mp hx with rfl | hxt
      · exact hba
      · exact hbt x hxt

theorem sortedGroups_pairwise {l : List OverlayGroup}
    (htot : l.Pairwise (fun x y => groupLe x y = true ∨ groupLe y x = true)) :
    (sortedGroups l).Pairwise (fun x y => groupLe x y = true) := by
  induction l with
  | nil => simp [sortedGroups]
  | cons a t ih =>
    rcases List.pairwise_cons.mp htot with ⟨hat, htt⟩
    rw [sortedGroups]
    apply insertSorted_pairwise (ih htt)
    intro b hb
    exact hat b ((sortedGroups_perm t).mem_iff.mp hb)

theorem pairwise_total_of_count {l : List OverlayGroup}
    (h : l.countP (fun g => g.id == "default") ≤ 1) :
    l.Pairwise (fun x y => groupLe x y = true ∨ groupLe y x = true) := by
  induction l with
  | nil => simp
  | cons a t ih =>
    rw [List.countP_cons] at h
    have hle : t.countP (fun g => g.id == "default") ≤ 1 := by
      by_cases hp : (a.id == "default") = true
      · rw [hp, if_pos rfl] at h; omega
      · rw [if_neg hp] at h; omega
    refine List.pairwise_cons.mpr ⟨?_, ih hle⟩
    intro b hb
    by_cases ha : a.id = "default"
    · have hfa : (a.id == "default") = true := by simp [ha]
      have hz : t.countP (fun g => g.id == "default") = 0 := by
        rw [hfa, if_pos rfl] at h
        omega
      have hb0 : ¬ b.id = "default" := by
        intro hcon
        have := (List.countP_eq_zero.mp hz) b hb
        simp [hcon] at this
      right
      simp [groupLe, hb0, ha]
    · by_cases hbd : b.id = "default"
      · left; simp [groupLe, ha, hbd]
      · rcases le_total a.order b.order with h1 | h1
        · left; simp [groupLe, ha, hbd, h1]
        · right; simp [groupLe, hbd, ha, h1]

theorem pairwise_default_split {l : List OverlayGroup}
    (hp : l.Pairwise (fun x y => groupLe x y = true))
    (hc : l.countP (fun g => g.id == "default") = 1) :
    ∃ pre d, l = pre ++ [d] ∧ d.id = "default" ∧
      (∀ x ∈ pre, x.id ≠ "default") ∧
      pre.Pairwise (fun x y => x.order ≤ y.order) := by
  induction l with
  | nil => simp at hc
  | cons a t ih =>
    rcases List.pairwise_cons.mp hp with ⟨hat, htp⟩
    rw [List.countP_cons] at hc
    by_cases ha : a.id = "default"
    · have ht : t = [] := by
        cases t with
        | nil => rfl
        | cons b u =>
          have := hat b (by simp)
          simp [groupLe, ha] at this
      subst ht
      exact ⟨[], a, by simp, ha, by simp, by simp⟩
    · have hfa : (a.id == "default") = false := by simp [ha]
      have hc1 : t.countP (fun g => g.id == "default") = 1 := by
        simp [hfa] at hc
        omega
      obtain ⟨pre, d, hteq, hd, hpre, hord⟩ := ih htp hc1
      refine ⟨a :: pre, d, by simp [hteq], hd, ?_, ?_⟩
      · intro x hx
        rcases List.mem_cons.mp hx with rfl | hxp
        · exact ha
        · exact hpre x hxp
      · refine List.pairwise_cons.mpr ⟨?_, hord⟩
        intro x hx
        have hxmem : x ∈ t := by
          rw [hteq]
          exact List.mem_append_left _ hx
        have hax := hat x hxmem
        have hxd : ¬ x.id = "default" := hpre x hx
        simp [groupLe, ha, hxd] at hax
        exact hax

def groupA : OverlayGroup := ⟨"A", "A", true, 5⟩

def groupB : OverlayGroup := ⟨"B", "B", true, 1⟩

/-- C6. For a group list with exactly one default group, the sorted order is
a permutation of the input consisting of all non-default groups in ascending
`order`, with the default group last; concretely A(order 5), B(order 1),
default(order 9999) sort to [B, A, default] from every insertion order. -/
theorem C6_sorted_groups :
    (∀ gs : List OverlayGroup, gs.countP (fun g => g.id == "default") = 1 →
      (sortedGroups gs).Perm gs ∧
      ∃ pre d, sortedGroups gs = pre ++ [d] ∧ d.id = "default" ∧
        (∀ x ∈ pre, x.id ≠ "default") ∧
        pre.Pairwise (fun x y => x.order ≤ y.order)) ∧
    (∀ gs, gs.Perm [groupA, groupB, DEFAULT_GROUP] →
      sortedGroups gs = [groupB, groupA, DEFAULT_GROUP]) := by
  constructor
  · intro gs hc
    have hperm := sortedGroups_perm gs
    refine ⟨hperm, ?_⟩
    apply pairwise_default_split
      (sortedGroups_pairwise (pairwise_total_of_count (le_of_eq hc)))
    rw [hperm.countP_eq]
    exact hc
  · intro gs hp
    have hc : gs.countP (fun g => g.id == "default") = 1 := by
      rw [hp.countP_eq]
      decide
    have hsp := sortedGroups_pairwise (pairwise_total_of_count (le_of_eq hc))
    have hl : (sortedGroups gs).Perm [groupA, groupB, DEFAULT_GROUP] :=
      (sortedGroups_perm gs).trans hp
    have hlen : (sortedGroups gs).length = 3 := by rw [hl.length_eq]; rfl
    obtain ⟨x, y, z, hxyz⟩ := List.length_eq_three.mp hlen
    rw [hxyz] at hsp hl ⊢
    have hnd : ([x, y, z] : List OverlayGroup).Nodup := hl.nodup_iff.mpr (by decide)
    have hx : x = groupA ∨ x = groupB ∨ x = DEFAULT_GROUP := by
      have := hl.mem_iff.mp (show x ∈ [x, y, z] by simp)
      simpa using this
    have hy : y = groupA ∨ y = groupB ∨ y = DEFAULT_GROUP := by
      have := hl.mem_iff.mp (show y ∈ [x, y, z] by simp)
      simpa using this
    have hz : z = groupA ∨ z = groupB ∨ z = DEFAULT_GROUP := by
      have := hl.mem_iff.mp (show z ∈ [x, y, z] by simp)
      simpa using this
    have hxy : groupLe x y = true := by
      have := List.pairwise_cons.mp hsp
      exact this.1 y (by simp)
    have hyz : groupLe y z = true := by
      have h1 := (List.pairwise_cons.mp hsp).2
      exact (List.pairwise_cons.mp h1).1 z (by simp)
    simp only [List.nodup_cons, List.mem_cons] at hnd
    rcases hx with rfl | rfl | rfl <;> rcases hy with rfl | rfl | rfl <;>
      rcases hz with rfl | rfl | rfl <;>
      simp_all [groupA, groupB, DEFAULT_GROUP, groupLe]

/-- Closed instance of `C6_sorted_groups` at two concrete group lists. -/
theorem C6_sorted_groups_witness :
    sortedGroups [groupA, groupB, DEFAULT_GROUP] =
        [groupB, groupA, DEFAULT_GROUP] ∧
      (sortedGroups [DEFAULT_GROUP]).Perm [DEFAULT_GROUP] :=
  ⟨C6_sorted_groups.2 [groupA, groupB, DEFAULT_GROUP] (List.Perm.refl _),
   (C6_sorted_groups.1 [DEFAULT_GROUP] (by decide)).1⟩

/-! ### Overlay persistence: save, load, normalize, field updates
(overlay-store `saveOverlay`, `loadAllOverlays`, `normalizeOverlay`,
`updateOverlayOpacity`, `updateOverlayVisibility`) -/

structure StoredOverlay where
  id : String
  filename : String
  data : List ℕ
  opacity : ℚ
  visible : Bool
  groupId : String
  timestamp : ℕ
  url : Option String
deriving DecidableEq, Repr

/-- Read-time `normalizeOverlay`: legacy records missing v2 fields get defaults at
read time; a missing timestamp defaults to `Date.now()` (`now`). -/
def normalizeOverlay (now : ℕ) (r : StoredOverlayRec) : StoredOverlay :=
  ⟨r.id, r.filename, r.data, r.opacity.getD 0.8, r.visible.getD true,
   r.groupId.getD "default", r.timestamp.getD now, r.url⟩

/-- The fully-populated raw record a field-update helper writes back. -/
def denormalizeOverlay (s : StoredOverlay) : StoredOverlayRec :=
  ⟨s.id, s.filename, s.data, some s.opacity, some s.visible, some s.groupId,
   some s.timestamp, s.url⟩

/-- Store operation `saveOverlay` writes a fresh record with every field present and
`timestamp: Date.now()` (`now`). -/
def saveOverlay (db : List StoredOverlayRec) (id filename : String)
    (data : List ℕ) (opacity : ℚ) (visible : Bool) (groupId : String)
    (now : ℕ) : List StoredOverlayRec :=
  dbPut db ⟨id, filename, data, some opacity, some visible, some groupId,
    some now, none⟩

def loadAllOverlays (db : List StoredOverlayRec) (now : ℕ) : List StoredOverlay :=
  db.map (normalizeOverlay now)

/-- Helper `updateOverlayOpacity`: get the record in a transaction, normalize it,
overwrite the opacity, put it back; absent id does nothing. -/
def updateOverlayOpacity (db : List StoredOverlayRec) (id : String)
    (opacity : ℚ) (now : ℕ) : List StoredOverlayRec :=
  match db.find? (fun x => x.id == id) with
  | none => db
  | some r => dbPut db (denormalizeOverlay { normalizeOverlay now r with opacity := opacity })

/-- Helper `updateOverlayVisibility`, same shape with the `visible` field. -/
def updateOverlayVisibility (db : List StoredOverlayRec) (id : String)
    (visible : Bool) (now : ℕ) : List StoredOverlayRec :=
  match db.find? (fun x => x.id == id) with
  | none => db
  | some r => dbPut db (denormalizeOverlay { normalizeOverlay now r with visible := visible })

theorem dbPut_nodup (db : List StoredOverlayRec) (r : StoredOverlayRec)
    (h : (db.map StoredOverlayRec.id).Nodup) :
    ((dbPut db r).map StoredOverlayRec.id).Nodup := by
  rw [dbPut]
  by_cases ha : db.any (fun x => x.id == r.id) = true
  · rw [if_pos ha]
    have hids : (db.map (fun x => if x.id == r.id then r else x)).map
        StoredOverlayRec.id = db.map StoredOverlayRec.id := by
      rw [List.map_map]
      apply List.map_congr_left
      intro x _
      by_cases hx : x.id = r.id
      · simp [hx]
      · simp [hx]
    rw [hids]
    exact h
  · rw [if_neg ha, List.map_append, List.nodup_append]
    refine ⟨h, by simp, ?_⟩
    intro x hx hy
    simp only [List.map_cons, List.map_nil, List.mem_singleton] at hy
    obtain ⟨o, ho, rfl⟩ := List.mem_map.mp hx
    exact ha (List.any_eq_true.mpr ⟨o, ho, by simp [hy]⟩)

theorem dbPut_countP (db : List StoredOverlayRec) (r : StoredOverlayRec)
    (h : (db.map StoredOverlayRec.id).Nodup) :
    (dbPut db r).countP (fun x => x.id == r.id) = 1 :=
  countP_key_eq_one StoredOverlayRec.id (dbPut db r) (dbPut_nodup db r h) r.id
    (by
      rw [dbPut]
      by_cases ha : db.any (fun x => x.id == r.id) = true
      · rw [if_pos ha]
        rcases List.any_eq_true.mp ha with ⟨x, hx, hxr⟩
        apply List.any_eq_true.mpr
        refine ⟨r, List.mem_map.mpr ⟨x, hx, by simp [hxr]⟩, by simp⟩
      · rw [if_neg ha]
        exact List.any_eq_true.mpr ⟨r, by simp, by simp⟩)

/-- After a put, any member carrying the put key is the put record itself. -/
theorem dbPut_eq_of_id (db : List StoredOverlayRec) (r : StoredOverlayRec) :
    ∀ x ∈ dbPut db r, x.id = r.id → x = r := by
  intro x hx hid
  rw [dbPut] at hx
  by_cases ha : db.any (fun y => y.id == r.id) = true
  · rw [if_pos ha] at hx
    obtain ⟨o, ho, hxo⟩ := List.mem_map.mp hx
    by_cases ho2 : (o.id == r.id) = true
    · rw [if_pos ho2] at hxo
      exact hxo.symm
    · rw [if_neg ho2] at hxo
      subst hxo
      exact absurd (by simp [hid]) ho2
  · rw [if_neg ha] at hx
    rcases List.mem_append.mp hx with hdb | hr
    · exact absurd (List.any_eq_true.mpr ⟨x, hdb, by simp [hid]⟩) ha
    · simpa using hr

/-- C8. `saveOverlay(id, name, bytes, 0.8, true, "default")` followed by
`loadAllOverlays()` yields exactly one record with that id, carrying exactly
the saved fields and a timestamp at least the save-call time. -/
theorem C8_save_load_round_trip (db : List StoredOverlayRec)
    (id filename : String) (data : List ℕ) (tc now now2 : ℕ)
    (hnd : (db.map StoredOverlayRec.id).Nodup) (htc : tc ≤ now) :
    (loadAllOverlays (saveOverlay db id filename data 0.8 true "default" now)
        now2).countP (fun s => s.id == id) = 1 ∧
    ∀ s ∈ loadAllOverlays (saveOverlay db id filename data 0.8 true "default" now)
        now2, s.id = id →
      s.filename = filename ∧ s.data = data ∧ s.opacity = 0.8 ∧
      s.visible = true ∧ s.groupId = "default" ∧ tc ≤ s.timestamp := by
  constructor
  · rw [loadAllOverlays, List.countP_map]
    have hcnt := dbPut_countP db
      ⟨id, filename, data, some 0.8, some true, some "default", some now, none⟩ hnd
    rw [saveOverlay]
    convert hcnt using 1
  · intro s hs hsid
    rw [loadAllOverlays] at hs
    obtain ⟨x, hx, hxs⟩ := List.mem_map.mp hs
    have hxid : x.id = id := by
      rw [← hxs] at hsid
      exact hsid
    have hxr := dbPut_eq_of_id db
      ⟨id, filename, data, some 0.8, some true, some "default", some now, none⟩
      x hx hxid
    subst hxr
    rw [← hxs]
    refine ⟨rfl, rfl, rfl, rfl, rfl, ?_⟩
    simpa [normalizeOverlay] using htc

/-- Closed instance of `C8_save_load_round_trip` on an empty store. -/
theorem C8_save_load_round_trip_witness :
    (loadAllOverlays (saveOverlay [] "a" "f" [] 0.8 true "default" 5)
        9).countP (fun s => s.id == "a") = 1 :=
  (C8_save_load_round_trip [] "a" "f" [] 0 5 9 (by simp) (by norm_num)).1

/-- C9. On a record with all fields present, each field-level helper (one
atomic transaction in the model) rewrites only its own field and leaves all
sibling records untouched; with the id absent the store is returned
unchanged. -/
theorem C9_field_update_frame (db : List StoredOverlayRec) (id : String)
    (o : ℚ) (v : Bool) (now : ℕ) :
    (db.find? (fun x => x.id == id) = none →
      updateOverlayOpacity db id o now = db ∧
      updateOverlayVisibility db id v now = db) ∧
    (∀ r, db.find? (fun x => x.id == id) = some r →
      r.opacity.isSome = true → r.visible.isSome = true →
      r.groupId.isSome = true → r.timestamp.isSome = true →
      updateOverlayOpacity db id o now =
        db.map (fun x => if x.id == id then { r with opacity := some o } else x) ∧
      updateOverlayVisibility db id v now =
        db.map (fun x => if x.id == id then { r with visible := some v } else x)) := by
  constructor
  · intro hnone
    rw [updateOverlayOpacity, updateOverlayVisibility, hnone]
    exact ⟨rfl, rfl⟩
  · intro r hfind hop hvis hgrp hts
    have hrid : r.id = id := by
      have := List.find?_some hfind
      simpa using this
    have hrmem : r ∈ db := List.mem_of_find?_eq_some hfind
    obtain ⟨op, hop2⟩ := Option.isSome_iff_exists.mp hop
    obtain ⟨vi, hvis2⟩ := Option.isSome_iff_exists.mp hvis
    obtain ⟨gr, hgrp2⟩ := Option.isSome_iff_exists.mp hgrp
    obtain ⟨ts, hts2⟩ := Option.isSome_iff_exists.mp hts
    have hany : db.any (fun x => x.id == r.id) = true :=
      List.any_eq_true.mpr ⟨r, hrmem, by simp⟩
    constructor
    · have hrec : denormalizeOverlay { normalizeOverlay now r with opacity := o } =
          { r with opacity := some o } := by
        simp [denormalizeOverlay, normalizeOverlay, hop2, hvis2, hgrp2, hts2]
      simp only [updateOverlayOpacity, hfind]
      rw [hrec, dbPut, if_pos (by simpa using hany)]
      apply List.map_congr_left
      intro x _
      have : ({ r with opacity := some o } : StoredOverlayRec).id = id := hrid
      rw [this]
    · have hrec : denormalizeOverlay { normalizeOverlay now r with visible := v } =
          { r with visible := some v } := by
        simp [denormalizeOverlay, normalizeOverlay, hop2, hvis2, hgrp2, hts2]
      simp only [updateOverlayVisibility, hfind]
      rw [hrec, dbPut, if_pos (by simpa using hany)]
      apply List.map_congr_left
      intro x _
      have : ({ r with visible := some v } : StoredOverlayRec).id = id := hrid
      rw [this]

/-- Closed instance of `C9_field_update_frame`: a one-record store with all
fields present gets exactly its opacity rewritten, and an absent id leaves
the store unchanged. -/
theorem C9_field_update_frame_witness :
    updateOverlayOpacity
        [⟨"a", "f", [], some 1, some true, some "default", some 3, none⟩]
        "a" (1/2) 7 =
      [⟨"a", "f", [], some (1/2), some true, some "default", some 3, none⟩] ∧
    updateOverlayOpacity [] "b" (1/2) 7 = [] := by
  constructor
  · have h := (C9_field_update_frame
        [⟨"a", "f", [], some 1, some true, some "default", some 3, none⟩]
        "a" (1/2) true 7).2
        ⟨"a", "f", [], some 1, some true, some "default", some 3, none⟩
        (by simp [List.find?]) rfl rfl rfl rfl
    rw [h.1]
    simp
  · exact ((C9_field_update_frame [] "b" (1/2) true 7).1 rfl).1

/-! ### The native bridge (MapView.tsx variant with overlay support)

`addRasterOverlay` stores a resolver in `overlayResolveRef`, injects the
command, and schedules a 10 s (`10000` ms) timeout that resolves `null` if
the resolver is still pending; `handleMessage` resolves the pending promise
only on an `overlayAdded` message.  A JS promise settles once: later
`resolve` calls are ignored. -/

structure BridgeMsg where
  ty : String
  info : Option OverlayDesc

structure BridgeState where
  refSet : Bool
  resolved : Option (Option OverlayDesc)
  resolvedAt : Option ℕ

/-- State right after the bridged `addRasterOverlay` call: resolver armed,
promise pending. -/
def bridgeCall : BridgeState := ⟨true, none, none⟩

/-- JS promise resolution: only the first settlement counts. -/
def promiseResolve (s : BridgeState) (v : Option OverlayDesc) (t : ℕ) :
    BridgeState :=
  if s.resolved.isSome then s else ⟨s.refSet, some v, some t⟩

/-- The `setTimeout` body at `t` = call time + 10000 ms. -/
def timeoutFire (s : BridgeState) (t : ℕ) : BridgeState :=
  if s.refSet then promiseResolve ⟨false, s.resolved, s.resolvedAt⟩ none t else s

/-- Native `handleMessage`: an `overlayAdded` message resolves a pending promise
and clears the resolver; everything else leaves the bridge state alone. -/
def handleMessage (s : BridgeState) (m : BridgeMsg) (t : ℕ) : BridgeState :=
  if m.ty == "overlayAdded" && s.refSet then
    promiseResolve ⟨false, s.resolved, s.resolvedAt⟩ m.info t
  else s

theorem foldl_handleMessage_no_overlay (msgs : List (BridgeMsg × ℕ))
    (hm : ∀ p ∈ msgs, p.1.ty ≠ "overlayAdded") :
    msgs.foldl (fun s p => handleMessage s p.1 p.2) bridgeCall = bridgeCall := by
  induction msgs with
  | nil => rfl
  | cons p t ih =>
    rw [List.foldl_cons]
    have hstep : handleMessage bridgeCall p.1 p.2 = bridgeCall := by
      rw [handleMessage, if_neg]
      simp [hm p (List.mem_cons_self p t)]
    rw [hstep]
    exact ih (fun q hq => hm q (List.mem_cons_of_mem _ hq))

theorem timeoutFire_bridgeCall (t : ℕ) :
    timeoutFire bridgeCall t = ⟨false, some none, some t⟩ := rfl

/-- C3. A bridged `addRasterOverlay` whose response never arrives resolves
to `null` exactly when the 10-second timeout fires, and any message arriving
after the timeout (an `overlayAdded` response included) leaves the bridge
state — resolver and settled promise — completely unchanged. -/
theorem C3_bridge_timeout (msgs : List (BridgeMsg × ℕ)) (t0 : ℕ)
    (hm : ∀ p ∈ msgs, p.1.ty ≠ "overlayAdded") :
    (timeoutFire (msgs.foldl (fun s p => handleMessage s p.1 p.2) bridgeCall)
        (t0 + 10000)).resolved = some none ∧
    (timeoutFire (msgs.foldl (fun s p => handleMessage s p.1 p.2) bridgeCall)
        (t0 + 10000)).resolvedAt = some (t0 + 10000) ∧
    ∀ m t, handleMessage
        (timeoutFire (msgs.foldl (fun s p => handleMessage s p.1 p.2) bridgeCall)
          (t0 + 10000)) m t =
      timeoutFire (msgs.foldl (fun s p => handleMessage s p.1 p.2) bridgeCall)
        (t0 + 10000) := by
  rw [foldl_handleMessage_no_overlay msgs hm, timeoutFire_bridgeCall]
  refine ⟨rfl, rfl, ?_⟩
  intro m t
  rw [handleMessage, if_neg]
  simp

/-- Closed instance of `C3_bridge_timeout`: no message ever arrives. -/
theorem C3_bridge_timeout_witness :
    (timeoutFire
        (List.foldl (fun s p => handleMessage s p.1 p.2) bridgeCall
          ([] : List (BridgeMsg × ℕ)))
        (0 + 10000)).resolved = some none :=
  (C3_bridge_timeout [] 0 (by simp)).1

/-! ### The injected page (map-html `handleCommand`) -/

inductive PageCmd where
  | updateLocation (lng lat accuracy : ℚ)
  | flyToLocation (lng lat : ℚ) (zoom : Option ℕ)
  | hideLocation
  | setTileSource (src : String)
  | addRasterOverlay (id url : String)
  | removeRasterOverlay (id : String)
  | setOverlayOpacity (id : String) (opacity : ℚ)

structure PageState where
  userFeature : Option (ℚ × ℚ × ℚ)
  locationLayersVisible : Bool
  center : ℚ × ℚ
  zoom : ℕ
  tileSource : String

/-- The page script's `handleCommand` switch: `updateLocation`,
`flyToLocation`, `hideLocation` and `setTileSource` are the only cases;
any other command type falls through the switch with no effect.  The
handler never posts a message (`postMessage` occurs only in the `load` and
`moveend` listeners).  `cosLat` is the runtime cosine of the latitude,
`cmd.zoom || 16` maps a missing or zero zoom to 16. -/
def pageHandleCommand (cosLat : ℚ) (s : PageState) (c : PageCmd) :
    PageState × List BridgeMsg :=
  match c with
  | .updateLocation lng lat acc =>
    ({ s with
        userFeature := some (lng, lat,
          accuracyRadius acc (metersPerPixel cosLat s.zoom)),
        locationLayersVisible := true }, [])
  | .flyToLocation lng lat zoom =>
    ({ s with
        center := (lng, lat),
        zoom := (match zoom with
          | none => 16
          | some z => if z = 0 then 16 else z) }, [])
  | .hideLocation => ({ s with locationLayersVisible := false }, [])
  | .setTileSource src => ({ s with tileSource := src }, [])
  | .addRasterOverlay _ _ => (s, [])
  | .removeRasterOverlay _ => (s, [])
  | .setOverlayOpacity _ _ => (s, [])

/-- The only messages the page ever posts: `mapLoaded` from the `load`
listener and `mapMoved` from the `moveend` listener. -/
inductive PageEvent where
  | mapLoaded
  | mapMoved (center : ℚ × ℚ) (zoom : ℕ)

def pageEventMsg : PageEvent → BridgeMsg
  | .mapLoaded => ⟨"mapLoaded", none⟩
  | .mapMoved _ _ => ⟨"mapMoved", none⟩

/-- C10. The injected page never handles an `addRasterOverlay` command (nor
the other overlay commands) and never posts an `overlayAdded` message, so
for every sequence of page events the bridged `addRasterOverlay` promise is
resolved to `null` by the timeout path alone. -/
theorem C10_bridged_overlay_always_null :
    (∀ (cosLat : ℚ) (s : PageState) (id url : String) (op : ℚ),
      pageHandleCommand cosLat s (PageCmd.addRasterOverlay id url) = (s, []) ∧
      pageHandleCommand cosLat s (PageCmd.removeRasterOverlay id) = (s, []) ∧
      pageHandleCommand cosLat s (PageCmd.setOverlayOpacity id op) = (s, [])) ∧
    (∀ e : PageEvent, (pageEventMsg e).ty ≠ "overlayAdded") ∧
    (∀ (evs : List (PageEvent × ℕ)) (t0 : ℕ),
      (timeoutFire
          (evs.foldl (fun s p => handleMessage s (pageEventMsg p.1) p.2) bridgeCall)
          (t0 + 10000)).resolved = some none) := by
  refine ⟨fun _ _ _ _ _ => ⟨rfl, rfl, rfl⟩, ?_, ?_⟩
  · intro e
    cases e <;> simp [pageEventMsg]
  · intro evs t0
    have hfold : evs.foldl (fun s p => handleMessage s (pageEventMsg p.1) p.2)
        bridgeCall =
        (evs.map (fun p => (pageEventMsg p.1, p.2))).foldl
          (fun s q => handleMessage s q.1 q.2) bridgeCall := by
      rw [List.foldl_map]
    rw [hfold, foldl_handleMessage_no_overlay, timeoutFire_bridgeCall]
    intro q hq
    obtain ⟨p, _, rfl⟩ := List.mem_map.mp hq
    cases p.1 <;> simp [pageEventMsg]

end FieldNote
